import Mathlib

/-!
Verification of the circular-array lock-free queue (single-producer variant).

The C++ sources embedded here are `lock_free_queue_impl.h` (base state:
`countToIndex`, `size`, `full`) and `lock_free_queue_impl_single_producer.h`
(the `push`/`pop` of `ArrayLockFreeQueue<ELEM_T, Q_SIZE, false>`).

Modelling choices:
* `uint32_t` counters are `Nat` reduced modulo `U32 = 2^32` at every
  arithmetic step that the C++ performs on `uint32_t` values.
* The element type `ELEM_T` is instantiated with `Nat`.
* The compile-time switch `LOCK_FREE_Q_KEEP_REAL_SIZE` becomes the Boolean
  parameter `keepRealSize`.
* Sequential (single-thread) executions of the operations are modelled by
  the functions `push`/`pop`: with no interference the pop loop's CAS
  succeeds on its first iteration, so `pop` is loop-free.
* Concurrent executions are modelled by a thread-interleaving small-step
  system (`CSys`, `popStep`, `prodStep`, `step`, `exec`) in which every
  access to a shared memory cell is one atomic step, exactly in the order
  the C++ statements perform them.
-/

namespace LockFreeQueue

/-- `2^32`; `uint32_t` arithmetic is arithmetic modulo this constant. -/
def U32 : Nat := 4294967296

/-- Reduction of a `Nat` to its `uint32_t` value. -/
def u32 (n : Nat) : Nat := n % U32

/-- State of `ArrayLockFreeQueueBase`: write index, read index, backing
array `m_theQueue`, and the (feature-gated) exact element count `m_count`.
Field names follow the C++ members. -/
structure AQueue where
  m_writeIndex : Nat
  m_readIndex : Nat
  m_theQueue : List Nat
  m_count : Nat
  deriving DecidableEq

/-- `ArrayLockFreeQueueBase::countToIndex`: `return (a_count % Q_SIZE);`. -/
def countToIndex (qsize a_count : Nat) : Nat :=
  a_count % qsize

/-- `ArrayLockFreeQueueBase::full`.  With `LOCK_FREE_Q_KEEP_REAL_SIZE` it is
`m_count == (Q_SIZE - 1)`; otherwise it compares
`countToIndex(currentWriteIndex + 1)` with `countToIndex(currentReadIndex)`,
the `+ 1` being a `uint32_t` addition. -/
def full (qsize : Nat) (keepRealSize : Bool) (q : AQueue) : Bool :=
  if keepRealSize then
    q.m_count == qsize - 1
  else
    countToIndex qsize (u32 (q.m_writeIndex + 1)) == countToIndex qsize q.m_readIndex

/-- Body of the derived (non-exact) `ArrayLockFreeQueueBase::size` applied to
an already-snapshotted pair `(currentWriteIndex, currentReadIndex)`:
`currentWriteIndex - currentReadIndex` if `currentWriteIndex >= currentReadIndex`,
else the `uint32_t` value of `Q_SIZE + currentWriteIndex - currentReadIndex`.
The snapshots are separate unsynchronized reads in the C++, which is why the
pair is a separate argument here. -/
def sizeSnap (qsize currentWriteIndex currentReadIndex : Nat) : Nat :=
  if currentReadIndex ≤ currentWriteIndex then
    currentWriteIndex - currentReadIndex
  else
    u32 (qsize + currentWriteIndex + (U32 - currentReadIndex))

/-- `ArrayLockFreeQueueBase::size`: `m_count` when the exact counter is kept,
otherwise the derived computation on the two indices. -/
def size (qsize : Nat) (keepRealSize : Bool) (q : AQueue) : Nat :=
  if keepRealSize then q.m_count
  else sizeSnap qsize q.m_writeIndex q.m_readIndex

/-- `ArrayLockFreeQueue<ELEM_T, Q_SIZE, false>::push` run without
interference: read both indices, fail if full, otherwise store the datum at
`countToIndex(currentWriteIndex)`, atomically bump `m_writeIndex` (a
`uint32_t` increment), and bump `m_count` when the exact counter is kept. -/
def push (qsize : Nat) (keepRealSize : Bool) (q : AQueue) (a_data : Nat) :
    Bool × AQueue :=
  if countToIndex qsize (u32 (q.m_writeIndex + 1)) = countToIndex qsize q.m_readIndex then
    (false, q)
  else
    (true,
      { q with
        m_theQueue := q.m_theQueue.set (countToIndex qsize q.m_writeIndex) a_data
        m_writeIndex := u32 (q.m_writeIndex + 1)
        m_count := if keepRealSize then u32 (q.m_count + 1) else q.m_count })

/-- `ArrayLockFreeQueue<ELEM_T, Q_SIZE, false>::pop` run without
interference: the maximum read index is `m_writeIndex`; if
`countToIndex(currentReadIndex)` equals `countToIndex(currentMaximumReadIndex)`
return failure, otherwise read the slot, and (the CAS succeeding, there being
no interference) bump `m_readIndex` and decrement `m_count` (a `uint32_t`
subtraction) when the exact counter is kept. -/
def pop (qsize : Nat) (keepRealSize : Bool) (q : AQueue) :
    Option Nat × AQueue :=
  if countToIndex qsize q.m_readIndex = countToIndex qsize q.m_writeIndex then
    (none, q)
  else
    (some (q.m_theQueue.getD (countToIndex qsize q.m_readIndex) 0),
      { q with
        m_readIndex := u32 (q.m_readIndex + 1)
        m_count := if keepRealSize then u32 (q.m_count + (U32 - 1)) else q.m_count })

/-- States reachable from a freshly constructed queue (both indices and the
count zeroed by the constructor, the buffer holding arbitrary initial
contents of length `Q_SIZE`) by sequences of successful sequential `push`
and `pop` operations.  `p` counts the successful pushes, `c` the successful
pops.  Failed operations return the state unchanged, so omitting them does
not shrink the reachable set. -/
inductive Reach (qsize : Nat) (keepRealSize : Bool) :
    AQueue → Nat → Nat → Prop where
  | init (buf : List Nat) (hlen : buf.length = qsize) :
      Reach qsize keepRealSize ⟨0, 0, buf, 0⟩ 0 0
  | push_step (q : AQueue) (p c a_data : Nat) (q2 : AQueue) :
      Reach qsize keepRealSize q p c →
      push qsize keepRealSize q a_data = (true, q2) →
      Reach qsize keepRealSize q2 (p + 1) c
  | pop_step (q : AQueue) (p c d : Nat) (q2 : AQueue) :
      Reach qsize keepRealSize q p c →
      pop qsize keepRealSize q = (some d, q2) →
      Reach qsize keepRealSize q2 p (c + 1)

/-- Multi-step sequential execution between two arbitrary states. -/
inductive Steps (qsize : Nat) (keepRealSize : Bool) : AQueue → AQueue → Prop where
  | refl (q : AQueue) : Steps qsize keepRealSize q q
  | push_step (q q2 q3 : AQueue) (a_data : Nat) :
      push qsize keepRealSize q a_data = (true, q2) →
      Steps qsize keepRealSize q2 q3 →
      Steps qsize keepRealSize q q3
  | pop_step (q q2 q3 : AQueue) (d : Nat) :
      pop qsize keepRealSize q = (some d, q2) →
      Steps qsize keepRealSize q2 q3 →
      Steps qsize keepRealSize q q3

/-! ### Thread-interleaved model of the concurrent protocol

Each constructor of `PopPhase`/`PushPhase` records the thread-local
variables of `pop`/`push` between two consecutive accesses to shared
memory; one step of `popStep`/`prodStep` performs exactly one shared-memory
access (or the CAS), in the statement order of the C++ source. -/

/-- Local state of a consumer thread inside `pop`.  `popGotMax` holds after
`currentMaximumReadIndex = m_writeIndex;`, `popGotRead` after
`currentReadIndex = m_readIndex;`, `popGotData` after
`a_data = m_theQueue[countToIndex(currentReadIndex)];`. -/
inductive PopPhase where
  | popStart
  | popGotMax (currentMaximumReadIndex : Nat)
  | popGotRead (currentMaximumReadIndex currentReadIndex : Nat)
  | popGotData (currentReadIndex a_data : Nat)
  | popDone (res : Option Nat)
  deriving DecidableEq

/-- Local state of the (single) producer thread inside `push`. -/
inductive PushPhase where
  | pushIdle
  | pushGotW (a_data currentWriteIndex : Nat)
  | pushGotR (a_data currentWriteIndex currentReadIndex : Nat)
  | pushWrote (a_data : Nat)
  deriving DecidableEq

/-- Global state of the concurrent system: the shared queue cells, the
producer's remaining pushes and local phase, every consumer's local phase,
and two logs: `pushLog` records each value whose `AtomicAdd` on
`m_writeIndex` committed, in order, and `popLog` records each value returned
by a `pop` whose CAS succeeded, ordered by the moment of CAS success. -/
structure CSys where
  m_writeIndex : Nat
  m_readIndex : Nat
  m_theQueue : List Nat
  prodPending : List Nat
  prodPhase : PushPhase
  consumers : List PopPhase
  pushLog : List Nat
  popLog : List Nat
  deriving DecidableEq

/-- One step of a consumer executing the body of the `pop` retry loop.
After `popGotRead`, if `countToIndex(currentReadIndex)` equals
`countToIndex(currentMaximumReadIndex)` the call returns `false` at once (no
CAS, no shared write); otherwise the slot is read.  The CAS compares
`m_readIndex` against the full 32-bit snapshot `currentReadIndex` and on
success stores `currentReadIndex + 1`; on failure the loop restarts.  A
finished call (`popDone`) is followed by a fresh call. -/
def popStep (qsize : Nat) (s : CSys) (ph : PopPhase) : CSys × PopPhase :=
  match ph with
  | .popStart => (s, .popGotMax s.m_writeIndex)
  | .popGotMax m => (s, .popGotRead m s.m_readIndex)
  | .popGotRead m r0 =>
      if countToIndex qsize r0 = countToIndex qsize m then
        (s, .popDone none)
      else
        (s, .popGotData r0 (s.m_theQueue.getD (countToIndex qsize r0) 0))
  | .popGotData r0 d =>
      if s.m_readIndex = r0 then
        ({ s with m_readIndex := u32 (r0 + 1), popLog := s.popLog ++ [d] },
          .popDone (some d))
      else
        (s, .popStart)
  | .popDone _ => (s, .popStart)

/-- One step of the single producer executing `push` on the next pending
value: read `m_writeIndex`, read `m_readIndex`, then either fail (full) or
write the slot, and finally commit with the atomic increment of
`m_writeIndex`. -/
def prodStep (qsize : Nat) (s : CSys) : CSys :=
  match s.prodPhase with
  | .pushIdle =>
      match s.prodPending with
      | [] => s
      | v :: rest =>
          { s with prodPending := rest, prodPhase := .pushGotW v s.m_writeIndex }
  | .pushGotW v w0 => { s with prodPhase := .pushGotR v w0 s.m_readIndex }
  | .pushGotR v w0 r0 =>
      if countToIndex qsize (u32 (w0 + 1)) = countToIndex qsize r0 then
        { s with prodPhase := .pushIdle }
      else
        { s with
          m_theQueue := s.m_theQueue.set (countToIndex qsize w0) v
          prodPhase := .pushWrote v }
  | .pushWrote v =>
      { s with
        m_writeIndex := u32 (s.m_writeIndex + 1)
        pushLog := s.pushLog ++ [v]
        prodPhase := .pushIdle }

/-- A scheduling decision: run the producer for one step, or consumer `tid`
for one step. -/
inductive Act where
  | prod
  | cons (tid : Nat)

/-- Interleaved execution: apply one scheduled thread step. -/
def step (qsize : Nat) (s : CSys) (a : Act) : CSys :=
  match a with
  | .prod => prodStep qsize s
  | .cons i =>
      match s.consumers.get? i with
      | none => s
      | some ph =>
          match popStep qsize s ph with
          | (s2, ph2) => { s2 with consumers := s2.consumers.set i ph2 }

/-- Run a whole schedule. -/
def exec (qsize : Nat) (s : CSys) : List Act → CSys
  | [] => s
  | a :: rest => exec qsize (step qsize s a) rest

/-- Initial system for the race scenario of claim C2: `Q_SIZE = 4`, buffer
zero-initialised, the producer about to push `10` then `20`, two consumer
threads. -/
def raceInit : CSys :=
  ⟨0, 0, [0, 0, 0, 0], [10, 20], .pushIdle, [.popStart, .popStart], [], []⟩

/-- The interleaving exhibiting the stale-write-index race in `pop`:
the producer pushes `10`; consumer `0` reads `m_writeIndex = 1` and is
preempted; the producer pushes `20`; consumer `1` pops `10` and `20`
(emptying the queue); consumer `0` resumes, reads `m_readIndex = 2`,
compares it against its stale snapshot `1` (slots `2 ≠ 1`, so the empty
test passes), reads the never-written slot `2`, and its CAS on
`m_readIndex` (still `2`) succeeds. -/
def raceSched : List Act :=
  [.prod, .prod, .prod, .prod,
   .cons 0,
   .prod, .prod, .prod, .prod,
   .cons 1, .cons 1, .cons 1, .cons 1, .cons 1,
   .cons 1, .cons 1, .cons 1, .cons 1,
   .cons 0, .cons 0, .cons 0]

/-- Push the values of a list one after the other, collecting each push's
Boolean result and the final state. -/
def pushSeq (qsize : Nat) (keepRealSize : Bool) (q : AQueue) :
    List Nat → List Bool × AQueue
  | [] => ([], q)
  | v :: vs =>
    match push qsize keepRealSize q v with
    | (b, q2) =>
      match pushSeq qsize keepRealSize q2 vs with
      | (bs, q3) => (b :: bs, q3)

/-- The sequential-state invariant: `c ≤ p`, the live count `p - c` fits in
the usable capacity, the read index is a `uint32_t` value, the write index
is the read index advanced by the live count (in `uint32_t` arithmetic),
and `m_count` tracks the live count when the exact counter is kept. -/
def QInv (qsize : Nat) (keepRealSize : Bool) (q : AQueue) (p c : Nat) : Prop :=
  c ≤ p ∧ p - c ≤ qsize - 1 ∧ q.m_readIndex < U32 ∧
  q.m_writeIndex = (q.m_readIndex + (p - c)) % U32 ∧
  (keepRealSize = true → q.m_count = p - c)

/-! ### Arithmetic helper lemmas -/

theorem u32_lt (n : Nat) : u32 n < U32 :=
  Nat.mod_lt _ (by decide)

theorem u32_eq_of_lt {n : Nat} (h : n < U32) : u32 n = n :=
  Nat.mod_eq_of_lt h

theorem qsize_pos {qsize : Nat} (hd : qsize ∣ U32) : 0 < qsize := by
  rcases Nat.eq_zero_or_pos qsize with h | h
  · subst h
    have : U32 = 0 := Nat.eq_zero_of_zero_dvd hd
    simp [U32] at this
  · exact h

theorem modeq_u32 {qsize : Nat} (hd : qsize ∣ U32) (x : Nat) :
    u32 x ≡ x [MOD qsize] :=
  (Nat.mod_modEq x U32).of_dvd hd

/-- The slot of the `uint32_t` successor of the write index, when the write
index sits at distance `d` above the read index `r` (mod `2^32`) and the
capacity divides `2^32`. -/
theorem slot_w_succ {qsize : Nat} (hd : qsize ∣ U32) (r d : Nat) :
    countToIndex qsize (u32 ((r + d) % U32 + 1)) = (r + d + 1) % qsize := by
  have h2 : (r + d) % U32 ≡ r + d [MOD qsize] :=
    (Nat.mod_modEq (r + d) U32).of_dvd hd
  have h3 : (r + d) % U32 + 1 ≡ r + d + 1 [MOD qsize] := h2.add_right 1
  have h1 : u32 ((r + d) % U32 + 1) ≡ (r + d) % U32 + 1 [MOD qsize] :=
    modeq_u32 hd _
  exact h1.trans h3

/-- The full test of `push`/`full`, expressed through the live count: when
the capacity divides `2^32`, the slot of `write_index + 1` meets the slot of
the read index exactly when the queue holds `Q_SIZE - 1` elements. -/
theorem full_rel_iff {qsize : Nat} (hd : qsize ∣ U32) (r d : Nat)
    (hdb : d ≤ qsize - 1) :
    (countToIndex qsize (u32 ((r + d) % U32 + 1)) = countToIndex qsize r) ↔
      d = qsize - 1 := by
  have hpos : 0 < qsize := qsize_pos hd
  rw [slot_w_succ hd]
  unfold countToIndex
  constructor
  · intro h
    have hme : r + (d + 1) ≡ r + 0 [MOD qsize] := by
      simpa [Nat.ModEq, Nat.add_assoc] using h
    have hdvd : qsize ∣ d + 1 :=
      (Nat.modEq_zero_iff_dvd).mp (hme.add_left_cancel' r)
    have hge : qsize ≤ d + 1 := Nat.le_of_dvd (Nat.succ_pos d) hdvd
    omega
  · intro h
    subst h
    have hq : qsize - 1 + 1 = qsize := by omega
    rw [Nat.add_assoc, hq, Nat.add_mod_right]

/-- The empty test of `pop`, expressed through the live count: when the
capacity divides `2^32`, the slot of the read index meets the slot of the
write index exactly when the queue is empty. -/
theorem empty_rel_iff {qsize : Nat} (hd : qsize ∣ U32) (r d : Nat)
    (hdb : d ≤ qsize - 1) :
    (countToIndex qsize r = countToIndex qsize ((r + d) % U32)) ↔ d = 0 := by
  have hpos : 0 < qsize := qsize_pos hd
  unfold countToIndex
  rw [Nat.mod_mod_of_dvd _ hd]
  constructor
  · intro h
    have hme : r + d ≡ r + 0 [MOD qsize] := by
      simpa [Nat.ModEq] using h.symm
    have hdvd : qsize ∣ d := (Nat.modEq_zero_iff_dvd).mp (hme.add_left_cancel' r)
    have : d < qsize := by omega
    exact Nat.eq_zero_of_dvd_of_lt hdvd this
  · intro h
    subst h
    rfl

/-- Master invariant: every sequentially reachable state of a queue whose
capacity divides `2^32` satisfies `QInv`. -/
theorem reach_inv {qsize : Nat} {keepRealSize : Bool} {q : AQueue} {p c : Nat}
    (hd : qsize ∣ U32) (hu : qsize < U32)
    (h : Reach qsize keepRealSize q p c) : QInv qsize keepRealSize q p c := by
  induction h with
  | init buf hlen =>
    refine ⟨Nat.le_refl 0, by omega, ?_, ?_, fun _ => rfl⟩
    · show (0:Nat) < U32
      decide
    · show (0:Nat) = (0 + (0 - 0)) % U32
      decide
  | push_step q p c a_data q2 hre hpush ih =>
    obtain ⟨h1, h2, h3, h4, h5⟩ := ih
    have hpos : 0 < qsize := qsize_pos hd
    by_cases hc : countToIndex qsize (u32 (q.m_writeIndex + 1)) =
        countToIndex qsize q.m_readIndex
    · simp [push, hc] at hpush
    · have hne : p - c ≠ qsize - 1 := by
        intro hEq
        apply hc
        rw [h4]
        exact (full_rel_iff hd q.m_readIndex (p - c) h2).mpr hEq
      have hq2 : q2 = { q with
          m_theQueue := q.m_theQueue.set (countToIndex qsize q.m_writeIndex) a_data
          m_writeIndex := u32 (q.m_writeIndex + 1)
          m_count := if keepRealSize then u32 (q.m_count + 1) else q.m_count } := by
        rw [push, if_neg hc] at hpush
        exact (Prod.mk.injEq _ _ _ _ ▸ hpush).2.symm
      subst hq2
      refine ⟨by omega, by omega, h3, ?_, ?_⟩
      · show u32 (q.m_writeIndex + 1) = (q.m_readIndex + (p + 1 - c)) % U32
        rw [h4]
        have hstep : p + 1 - c = (p - c) + 1 := by omega
        rw [hstep]
        unfold u32 U32
        omega
      · intro hkr
        show (if keepRealSize then u32 (q.m_count + 1) else q.m_count) = p + 1 - c
        rw [hkr, if_pos rfl, h5 hkr]
        have hlt : p - c + 1 < U32 := by omega
        rw [u32_eq_of_lt hlt]
        omega
  | pop_step q p c d q2 hre hpop ih =>
    obtain ⟨h1, h2, h3, h4, h5⟩ := ih
    have hpos : 0 < qsize := qsize_pos hd
    by_cases hc : countToIndex qsize q.m_readIndex = countToIndex qsize q.m_writeIndex
    · simp [pop, hc] at hpop
    · have hne : p - c ≠ 0 := by
        intro hEq
        apply hc
        rw [h4]
        exact (empty_rel_iff hd q.m_readIndex (p - c) h2).mpr hEq
      have hq2 : q2 = { q with
          m_readIndex := u32 (q.m_readIndex + 1)
          m_count := if keepRealSize then u32 (q.m_count + (U32 - 1)) else q.m_count } := by
        rw [pop, if_neg hc] at hpop
        exact (Prod.mk.injEq _ _ _ _ ▸ hpop).2.symm
      subst hq2
      refine ⟨by omega, by omega, u32_lt _, ?_, ?_⟩
      · show q.m_writeIndex = (u32 (q.m_readIndex + 1) + (p - (c + 1))) % U32
        rw [h4]
        unfold u32 U32
        omega
      · intro hkr
        show (if keepRealSize then u32 (q.m_count + (U32 - 1)) else q.m_count) = p - (c + 1)
        rw [hkr, if_pos rfl, h5 hkr]
        have hu4 : qsize < 4294967296 := hu
        show (p - c + (4294967296 - 1)) % 4294967296 = p - (c + 1)
        omega

theorem set_zeros3 (i : Nat) : List.set [0, 0, 0] i (0:Nat) = [0, 0, 0] := by
  match i with
  | 0 => rfl
  | 1 => rfl
  | 2 => rfl
  | n + 3 => rfl

theorem getD_zeros3 (i : Nat) : List.getD [0, 0, 0] i (0:Nat) = 0 := by
  match i with
  | 0 => rfl
  | 1 => rfl
  | 2 => rfl
  | n + 3 => rfl

theorem getElem_zeros3 (i : Nat) : ([0, 0, 0] : List Nat)[i]?.getD 0 = 0 := by
  match i with
  | 0 => rfl
  | 1 => rfl
  | 2 => rfl
  | n + 3 => rfl

/-- Helper: for `Q_SIZE = 3`, every diagonal state (equal indices, empty
queue, zero buffer) with index below `2^32` is reachable, by that many
push/pop pairs. -/
theorem reach_diag (keepRealSize : Bool) :
    ∀ k : Nat, k < U32 → Reach 3 keepRealSize ⟨k, k, [0, 0, 0], 0⟩ k k := by
  intro k
  induction k with
  | zero => intro _; exact Reach.init [0, 0, 0] rfl
  | succ k ih =>
    intro hk
    have hk4 : k + 1 < 4294967296 := hk
    have ihh := ih (by omega)
    have hcond1 : ¬ (countToIndex 3 (u32 (k + 1)) = countToIndex 3 k) := by
      unfold countToIndex u32 U32
      rw [Nat.mod_eq_of_lt hk4]
      omega
    have hpush : push 3 keepRealSize ⟨k, k, [0, 0, 0], 0⟩ 0 =
        (true, ⟨k + 1, k, [0, 0, 0], if keepRealSize then 1 else 0⟩) := by
      simp only [push]
      rw [if_neg hcond1]
      have hw : u32 (k + 1) = k + 1 := u32_eq_of_lt hk
      cases keepRealSize
      all_goals simp [hw, set_zeros3, u32, U32]
      all_goals omega
    have hcond2 : ¬ (countToIndex 3 k = countToIndex 3 (k + 1)) := by
      unfold countToIndex
      omega
    have hpop : pop 3 keepRealSize ⟨k + 1, k, [0, 0, 0], if keepRealSize then 1 else 0⟩ =
        (some 0, ⟨k + 1, k + 1, [0, 0, 0], 0⟩) := by
      simp only [pop]
      rw [if_neg hcond2]
      have hw : u32 (k + 1) = k + 1 := u32_eq_of_lt hk
      cases keepRealSize
      all_goals simp [hw, getD_zeros3, getElem_zeros3, u32, U32]
      all_goals omega
    exact Reach.pop_step _ _ _ 0 _ (Reach.push_step _ _ _ 0 _ ihh hpush) hpop

/-- Claim C9 (amended: the capacity must divide `2^32`, e.g. be a power of
two — for other capacities the bound is refuted at counter wraparound).  On
every state reachable from the freshly constructed queue by `p` successful
pushes and `c` successful pops, the `uint32_t` difference
`write_index - read_index` equals the number `p - c` of elements pushed but
not yet popped, that number is at most `Q_SIZE - 1`, and with exact-count
tracking enabled `m_count` equals the same number. -/
theorem c9_invariant (qsize : Nat) (keepRealSize : Bool) (q : AQueue) (p c : Nat)
    (hd : qsize ∣ U32) (hu : qsize < U32) (h : Reach qsize keepRealSize q p c) :
    c ≤ p ∧ (q.m_writeIndex + (U32 - q.m_readIndex)) % U32 = p - c ∧
    p - c ≤ qsize - 1 ∧ (keepRealSize = true → q.m_count = p - c) := by
  obtain ⟨h1, h2, h3, h4, h5⟩ := reach_inv hd hu h
  refine ⟨h1, ?_, h2, h5⟩
  rw [h4]
  have hu4 : qsize < 4294967296 := hu
  have h34 : q.m_readIndex < 4294967296 := h3
  show ((q.m_readIndex + (p - c)) % 4294967296 + (4294967296 - q.m_readIndex)) %
      4294967296 = p - c
  omega

/-- Witness for claim C9: the invariant instantiated at the freshly
constructed queue of capacity 4. -/
theorem c9_invariant_witness :
    (0:Nat) ≤ 0 ∧ ((0:Nat) + (U32 - 0)) % U32 = 0 - 0 ∧
    (0:Nat) - 0 ≤ 4 - 1 ∧ (false = true → (0:Nat) = 0 - 0) :=
  c9_invariant 4 false ⟨0, 0, [0, 0, 0, 0], 0⟩ 0 0 ⟨1073741824, rfl⟩ (by decide)
    (Reach.init [0, 0, 0, 0] rfl)

/-- Counterexample to claim C9 as frozen: with `Q_SIZE = 3` (which does not
divide `2^32`), the state with `write_index = 1`, `read_index = 4294967294`
is reachable — by `4294967294` push/pop pairs followed by three further
successful pushes — and it holds `3` live elements, exceeding the claimed
bound `Q_SIZE - 1 = 2`: at the `uint32_t` wraparound the full test of `push`
misfires for capacities that do not divide `2^32`. -/
theorem c9_cex :
    Reach 3 false ⟨1, 4294967294, [0, 0, 0], 0⟩ 4294967297 4294967294 ∧
    ¬ ((4294967297:Nat) - 4294967294 ≤ 3 - 1) := by
  refine ⟨?_, by decide⟩
  have hdiag := reach_diag false 4294967294 (by decide)
  have h1 : push 3 false ⟨4294967294, 4294967294, [0, 0, 0], 0⟩ 0 =
      (true, ⟨4294967295, 4294967294, [0, 0, 0], 0⟩) := by decide
  have h2 : push 3 false ⟨4294967295, 4294967294, [0, 0, 0], 0⟩ 0 =
      (true, ⟨0, 4294967294, [0, 0, 0], 0⟩) := by decide
  have h3 : push 3 false ⟨0, 4294967294, [0, 0, 0], 0⟩ 0 =
      (true, ⟨1, 4294967294, [0, 0, 0], 0⟩) := by decide
  exact Reach.push_step _ _ _ 0 _
    (Reach.push_step _ _ _ 0 _ (Reach.push_step _ _ _ 0 _ hdiag h1) h2) h3

/-- Claim C5 (amended: the capacity must divide `2^32`, e.g. be a power of
two — otherwise the exact-count configuration is refuted at counter
wraparound).  In both configurations, on every reachable state, `full()`
returns `true` exactly when `countToIndex (write_index + 1)` equals
`countToIndex read_index`. -/
theorem c5_full_iff (qsize : Nat) (keepRealSize : Bool) (q : AQueue) (p c : Nat)
    (hd : qsize ∣ U32) (hu : qsize < U32) (h : Reach qsize keepRealSize q p c) :
    (full qsize keepRealSize q = true ↔
      countToIndex qsize (u32 (q.m_writeIndex + 1)) = countToIndex qsize q.m_readIndex) := by
  obtain ⟨h1, h2, h3, h4, h5⟩ := reach_inv hd hu h
  cases keepRealSize with
  | false => simp [full]
  | true =>
    have hf : full qsize true q = (q.m_count == qsize - 1) := rfl
    rw [hf, beq_iff_eq, h5 rfl, h4]
    exact (full_rel_iff hd q.m_readIndex (p - c) h2).symm

/-- Witness for claim C5: the equivalence instantiated at a reachable
two-element state of a capacity-4 exact-count queue. -/
theorem c5_full_iff_witness :
    (full 4 true ⟨2, 0, [1, 2, 0, 0], 2⟩ = true ↔
      countToIndex 4 (u32 (2 + 1)) = countToIndex 4 0) :=
  c5_full_iff 4 true ⟨2, 0, [1, 2, 0, 0], 2⟩ 2 0 ⟨1073741824, rfl⟩ (by decide)
    (Reach.push_step ⟨1, 0, [1, 0, 0, 0], 1⟩ 1 0 2 ⟨2, 0, [1, 2, 0, 0], 2⟩
      (Reach.push_step ⟨0, 0, [0, 0, 0, 0], 0⟩ 0 0 1 ⟨1, 0, [1, 0, 0, 0], 1⟩
        (Reach.init [0, 0, 0, 0] rfl) (by decide))
      (by decide))

/-- Counterexample to claim C5 as frozen: with `Q_SIZE = 3` and exact-count
tracking, the state `write_index = 4294967295`, `read_index = 4294967293`,
`m_count = 2` is reachable, `full()` returns `true` (`m_count = Q_SIZE - 1`),
yet `countToIndex (write_index + 1) = 0 ≠ 1 = countToIndex read_index`: the
two fullness criteria disagree across the `uint32_t` wraparound when the
capacity does not divide `2^32`. -/
theorem c5_cex :
    Reach 3 true ⟨4294967295, 4294967293, [0, 0, 0], 2⟩ 4294967295 4294967293 ∧
    full 3 true ⟨4294967295, 4294967293, [0, 0, 0], 2⟩ = true ∧
    ¬ (countToIndex 3 (u32 (4294967295 + 1)) = countToIndex 3 4294967293) := by
  refine ⟨?_, by decide, by decide⟩
  have hdiag := reach_diag true 4294967293 (by decide)
  have h1 : push 3 true ⟨4294967293, 4294967293, [0, 0, 0], 0⟩ 0 =
      (true, ⟨4294967294, 4294967293, [0, 0, 0], 1⟩) := by decide
  have h2 : push 3 true ⟨4294967294, 4294967293, [0, 0, 0], 1⟩ 0 =
      (true, ⟨4294967295, 4294967293, [0, 0, 0], 2⟩) := by decide
  exact Reach.push_step _ _ _ 0 _ (Reach.push_step _ _ _ 0 _ hdiag h1) h2

/-- Claim C2 evaluated at the failing interleaving (the claim is the
intended behaviour; the code has a race).  Running the 21-step schedule
`raceSched` on a capacity-4 queue: the producer commits pushes `[10, 20]`,
yet three pops succeed, returning `[10, 20, 0]` in CAS order — the third
value was never pushed (it is the stale content of slot 2), and the final
state has `read_index = 3` beyond `write_index = 2`.  Because `pop` reads
`m_writeIndex` before `m_readIndex`, a consumer preempted between the two
reads can pass the empty test against a stale write index and its CAS still
succeeds, so a pop succeeds on an empty queue: the popped sequence is not a
prefix of the pushed sequence, and more pops than pushes succeed. -/
theorem c2_race :
    (exec 4 raceInit raceSched).pushLog = [10, 20] ∧
    (exec 4 raceInit raceSched).popLog = [10, 20, 0] ∧
    (exec 4 raceInit raceSched).m_writeIndex = 2 ∧
    (exec 4 raceInit raceSched).m_readIndex = 3 := by
  decide

/-- Claim C6: whenever `countToIndex (write_index + 1)` equals
`countToIndex read_index`, `push` returns `false` and the state — buffer,
both indices, and the count — is returned exactly as it was, in both
configurations. -/
theorem c6_push_full (qsize : Nat) (keepRealSize : Bool) (q : AQueue) (a_data : Nat)
    (hfull : countToIndex qsize (u32 (q.m_writeIndex + 1)) =
      countToIndex qsize q.m_readIndex) :
    push qsize keepRealSize q a_data = (false, q) := by
  unfold push
  rw [if_pos hfull]

/-- Witness for claim C6 at a full capacity-2 queue. -/
theorem c6_push_full_witness :
    push 2 false ⟨0, 1, [5, 6], 0⟩ 5 = (false, ⟨0, 1, [5, 6], 0⟩) :=
  c6_push_full 2 false ⟨0, 1, [5, 6], 0⟩ 5 (by decide)

/-- Claim C7: when the normalized read index equals the normalized write
index, `pop` returns `false` immediately.  In the thread-step model the
consumer moves from the post-snapshot phase straight to `popDone none`
without touching shared state (no CAS, no retry); in the sequential model
`pop` returns `(none, q)` with the state unchanged. -/
theorem c7_pop_empty (qsize : Nat) (keepRealSize : Bool) (s : CSys) (q : AQueue)
    (m r0 : Nat)
    (h1 : countToIndex qsize r0 = countToIndex qsize m)
    (h2 : countToIndex qsize q.m_readIndex = countToIndex qsize q.m_writeIndex) :
    popStep qsize s (.popGotRead m r0) = (s, .popDone none) ∧
    pop qsize keepRealSize q = (none, q) := by
  constructor
  · show (if countToIndex qsize r0 = countToIndex qsize m then
        (s, PopPhase.popDone none)
      else (s, PopPhase.popGotData r0 (s.m_theQueue.getD (countToIndex qsize r0) 0))) =
      (s, PopPhase.popDone none)
    rw [if_pos h1]
  · unfold pop
    rw [if_pos h2]

/-- Witness for claim C7 at concrete empty-test instances. -/
theorem c7_pop_empty_witness :
    popStep 3 ⟨0, 0, [], [], .pushIdle, [], [], []⟩ (.popGotRead 4 1) =
      (⟨0, 0, [], [], .pushIdle, [], [], []⟩, .popDone none) ∧
    pop 3 false ⟨5, 5, [], 0⟩ = (none, ⟨5, 5, [], 0⟩) :=
  c7_pop_empty 3 false ⟨0, 0, [], [], .pushIdle, [], [], []⟩ ⟨5, 5, [], 0⟩ 4 1
    (by decide) (by decide)

/-- Claim C8: whenever the queue is not full, `push value` succeeds: it
stores `value` into `buffer[countToIndex write_index]`, bumps `write_index`
by exactly one (`uint32_t` increment), bumps the count exactly when
exact-count tracking is on, leaves `read_index` unchanged, and every other
buffer slot keeps its previous content. -/
theorem c8_push_ok (qsize : Nat) (keepRealSize : Bool) (q : AQueue) (a_data : Nat)
    (hN : 1 ≤ qsize) (hlen : q.m_theQueue.length = qsize)
    (hfull : ¬ (countToIndex qsize (u32 (q.m_writeIndex + 1)) =
      countToIndex qsize q.m_readIndex)) :
    push qsize keepRealSize q a_data = (true,
      { q with
        m_theQueue := q.m_theQueue.set (countToIndex qsize q.m_writeIndex) a_data
        m_writeIndex := u32 (q.m_writeIndex + 1)
        m_count := if keepRealSize then u32 (q.m_count + 1) else q.m_count }) ∧
    (q.m_theQueue.set (countToIndex qsize q.m_writeIndex) a_data)[countToIndex
      qsize q.m_writeIndex]? = some a_data ∧
    (∀ j, j ≠ countToIndex qsize q.m_writeIndex →
      (q.m_theQueue.set (countToIndex qsize q.m_writeIndex) a_data)[j]? =
        q.m_theQueue[j]?) := by
  refine ⟨?_, ?_, ?_⟩
  · unfold push
    rw [if_neg hfull]
  · apply List.getElem?_set_eq_of_lt
    rw [hlen]
    exact Nat.mod_lt _ (by omega)
  · intro j hj
    exact List.getElem?_set_ne (fun h => hj h.symm)

/-- Witness for claim C8 at a capacity-2 queue holding `[7, 8]`. -/
theorem c8_push_ok_witness :
    push 2 false ⟨0, 0, [7, 8], 0⟩ 9 = (true, ⟨1, 0, [9, 8], 0⟩) := by
  have h := (c8_push_ok 2 false ⟨0, 0, [7, 8], 0⟩ 9 (by decide) (by decide)
    (by decide)).1
  rw [h]
  decide

/-- Claim C10: with `Q_SIZE = 1`, `countToIndex` returns `0` on every
counter, so the full and empty tests coincide on every state: every `push`
returns `false` and every `pop` returns `false`, in both configurations —
the queue can never hold or deliver an element. -/
theorem c10_qsize_one (keepRealSize : Bool) (q : AQueue) (a_data c0 : Nat) :
    countToIndex 1 c0 = 0 ∧ push 1 keepRealSize q a_data = (false, q) ∧
    pop 1 keepRealSize q = (none, q) := by
  refine ⟨Nat.mod_one c0, ?_, ?_⟩
  · unfold push
    rw [if_pos (by simp [countToIndex, Nat.mod_one])]
  · unfold pop
    rw [if_pos (by simp [countToIndex, Nat.mod_one])]

/-- Helper: pushing values one by one into a part-way filled queue whose
read index is still `0` succeeds as long as the write index stays below
`Q_SIZE - 1`, each push advancing the write index (and the count, when
kept) by one. -/
theorem pushSeq_run (qsize : Nat) (keepRealSize : Bool) (hN : 1 < qsize)
    (hu : qsize < U32) :
    ∀ (vs : List Nat) (k : Nat) (buf : List Nat),
      k + vs.length + 1 ≤ qsize →
      ∃ buf2, pushSeq qsize keepRealSize
          ⟨k, 0, buf, if keepRealSize then k else 0⟩ vs =
        (List.replicate vs.length true,
          ⟨k + vs.length, 0, buf2, if keepRealSize then k + vs.length else 0⟩) := by
  intro vs
  induction vs with
  | nil =>
    intro k buf h
    exact ⟨buf, by simp [pushSeq]⟩
  | cons v tl ih =>
    intro k buf h
    have hq4 : qsize < 4294967296 := hu
    have hk2 : k + 1 + 1 ≤ qsize := by simp [List.length_cons] at h; omega
    have hcond : ¬ (countToIndex qsize (u32 (k + 1)) = countToIndex qsize 0) := by
      unfold countToIndex u32 U32
      rw [Nat.mod_eq_of_lt (by omega : k + 1 < 4294967296)]
      rw [Nat.mod_eq_of_lt (by omega : k + 1 < qsize)]
      simp
    have hk1 : u32 (k + 1) = k + 1 := by
      unfold u32 U32
      exact Nat.mod_eq_of_lt (by omega)
    have hpush : push qsize keepRealSize ⟨k, 0, buf, if keepRealSize then k else 0⟩ v =
        (true, ⟨k + 1, 0, buf.set (countToIndex qsize k) v,
          if keepRealSize then k + 1 else 0⟩) := by
      unfold push
      rw [if_neg hcond]
      cases keepRealSize
      all_goals simp [hk1, u32, U32]
      all_goals omega
    obtain ⟨buf2, htl⟩ := ih (k + 1) (buf.set (countToIndex qsize k) v)
      (by simp [List.length_cons] at h ⊢; omega)
    refine ⟨buf2, ?_⟩
    simp only [List.length_cons, List.replicate_succ]
    have harith : k + (tl.length + 1) = k + 1 + tl.length := by omega
    rw [harith]
    simp [pushSeq, hpush, htl]

/-- Claim C1 (amended: the capacity additionally satisfies
`Q_SIZE + 1 < 2^32`, i.e. `Q_SIZE ≤ 2^32 - 2`; the claim as frozen fails at
`Q_SIZE = 2^32 - 1`).  From the freshly constructed state, the first
`Q_SIZE - 1` pushes all succeed, `full()` then returns `true`, the
`Q_SIZE`-th push fails, and after one successful pop exactly one more push
succeeds — the push after it fails again.  Holds in both configurations and
for arbitrary pushed values and initial buffer contents. -/
theorem c1_capacity (qsize : Nat) (keepRealSize : Bool) (vs : List Nat)
    (buf0 : List Nat) (v1 v2 v3 : Nat)
    (hN : 1 < qsize) (hu2 : qsize + 1 < U32) (hlen : vs.length = qsize - 1) :
    (pushSeq qsize keepRealSize ⟨0, 0, buf0, 0⟩ vs).1 =
      List.replicate (qsize - 1) true ∧
    full qsize keepRealSize (pushSeq qsize keepRealSize ⟨0, 0, buf0, 0⟩ vs).2 = true ∧
    (push qsize keepRealSize (pushSeq qsize keepRealSize ⟨0, 0, buf0, 0⟩ vs).2 v1).1 =
      false ∧
    (pop qsize keepRealSize (pushSeq qsize keepRealSize ⟨0, 0, buf0, 0⟩ vs).2).1.isSome =
      true ∧
    (push qsize keepRealSize
      (pop qsize keepRealSize (pushSeq qsize keepRealSize ⟨0, 0, buf0, 0⟩ vs).2).2 v2).1 =
      true ∧
    (push qsize keepRealSize
      (push qsize keepRealSize
        (pop qsize keepRealSize (pushSeq qsize keepRealSize ⟨0, 0, buf0, 0⟩ vs).2).2
        v2).2 v3).1 = false := by
  have hq4 : qsize < 4294967296 := by
    have : qsize + 1 < 4294967296 := hu2
    omega
  have hstart : (⟨0, 0, buf0, 0⟩ : AQueue) =
      ⟨0, 0, buf0, if keepRealSize then 0 else 0⟩ := by
    cases keepRealSize <;> rfl
  obtain ⟨buf2, hrun⟩ := pushSeq_run qsize keepRealSize hN (by omega) vs 0 buf0
    (by omega)
  rw [hlen] at hrun
  simp only [Nat.zero_add] at hrun
  rw [hstart, hrun]
  dsimp only
  have e1 : qsize - 1 + 1 = qsize := by omega
  have e2 : u32 qsize = qsize := by
    unfold u32 U32
    exact Nat.mod_eq_of_lt (by omega)
  have e5 : 1 % qsize = 1 := Nat.mod_eq_of_lt (by omega)
  have hfullrel : countToIndex qsize (u32 (qsize - 1 + 1)) = countToIndex qsize 0 := by
    unfold countToIndex
    rw [e1, e2, Nat.mod_self, Nat.zero_mod]
  have hempty : ¬ (countToIndex qsize 0 = countToIndex qsize (qsize - 1)) := by
    unfold countToIndex
    rw [Nat.zero_mod, Nat.mod_eq_of_lt (by omega : qsize - 1 < qsize)]
    omega
  have hpop : pop qsize keepRealSize
      ⟨qsize - 1, 0, buf2, if keepRealSize then qsize - 1 else 0⟩ =
      (some (buf2.getD (countToIndex qsize 0) 0),
        ⟨qsize - 1, u32 (0 + 1), buf2,
          if keepRealSize then
            u32 ((if keepRealSize then qsize - 1 else 0) + (U32 - 1))
          else (if keepRealSize then qsize - 1 else 0)⟩) := by
    unfold pop
    rw [if_neg hempty]
  have hu321 : u32 (0 + 1) = 1 := by
    unfold u32 U32
    omega
  have hp2cond : ¬ (countToIndex qsize (u32 (qsize - 1 + 1)) = countToIndex qsize 1) := by
    unfold countToIndex
    rw [e1, e2, Nat.mod_self, e5]
    omega
  have hpush2 : ∀ (B : List Nat) (C : Nat),
      push qsize keepRealSize ⟨qsize - 1, 1, B, C⟩ v2 =
      (true, ⟨u32 (qsize - 1 + 1), 1, B.set (countToIndex qsize (qsize - 1)) v2,
        if keepRealSize then u32 (C + 1) else C⟩) := by
    intro B C
    unfold push
    rw [if_neg hp2cond]
  have hp3cond : countToIndex qsize (u32 (u32 (qsize - 1 + 1) + 1)) =
      countToIndex qsize 1 := by
    unfold countToIndex
    rw [e1, e2]
    have e7 : u32 (qsize + 1) = qsize + 1 := by
      unfold u32 U32
      have : qsize + 1 < 4294967296 := hu2
      exact Nat.mod_eq_of_lt this
    rw [e7, e5]
    rw [Nat.add_comm qsize 1, Nat.add_mod_right]
    exact e5
  have hpush3 : ∀ (B : List Nat) (C : Nat),
      push qsize keepRealSize ⟨u32 (qsize - 1 + 1), 1, B, C⟩ v3 =
      (false, ⟨u32 (qsize - 1 + 1), 1, B, C⟩) := by
    intro B C
    unfold push
    rw [if_pos hp3cond]
  refine ⟨rfl, ?_, ?_, ?_, ?_, ?_⟩
  · cases keepRealSize with
    | false =>
      show (countToIndex qsize (u32 (qsize - 1 + 1)) ==
        countToIndex qsize 0 : Bool) = true
      simp [hfullrel]
    | true =>
      show ((qsize - 1 : Nat) == qsize - 1 : Bool) = true
      simp
  · show (push qsize keepRealSize
      ⟨qsize - 1, 0, buf2, if keepRealSize then qsize - 1 else 0⟩ v1).1 = false
    unfold push
    rw [if_pos hfullrel]
  · rw [hpop]
    rfl
  · rw [hpop, hu321, hpush2]
  · rw [hpop, hu321, hpush2, hpush3]

/-- Witness for claim C1 at capacity 4, pushing `7, 8, 9`. -/
theorem c1_capacity_witness :
    (pushSeq 4 false ⟨0, 0, [0, 0, 0, 0], 0⟩ [7, 8, 9]).1 =
      List.replicate (4 - 1) true ∧
    full 4 false (pushSeq 4 false ⟨0, 0, [0, 0, 0, 0], 0⟩ [7, 8, 9]).2 = true ∧
    (push 4 false (pushSeq 4 false ⟨0, 0, [0, 0, 0, 0], 0⟩ [7, 8, 9]).2 10).1 = false ∧
    (pop 4 false (pushSeq 4 false ⟨0, 0, [0, 0, 0, 0], 0⟩ [7, 8, 9]).2).1.isSome = true ∧
    (push 4 false
      (pop 4 false (pushSeq 4 false ⟨0, 0, [0, 0, 0, 0], 0⟩ [7, 8, 9]).2).2 10).1 = true ∧
    (push 4 false
      (push 4 false
        (pop 4 false (pushSeq 4 false ⟨0, 0, [0, 0, 0, 0], 0⟩ [7, 8, 9]).2).2 10).2
      11).1 = false :=
  c1_capacity 4 false [7, 8, 9] [0, 0, 0, 0] 10 10 11 (by decide) (by decide) (by decide)

/-- Counterexample to claim C1 as frozen: for the legal `uint32_t` capacity
`Q_SIZE = 2^32 - 1 > 1`, after the `Q_SIZE - 1` successful pushes and one
successful pop, two further pushes succeed in a row — not exactly one — because
`write_index + 1` wraps to `0` and the full test misfires. -/
theorem c1_cex :
    (pop 4294967295 false
      (pushSeq 4294967295 false ⟨0, 0, [], 0⟩ (List.replicate 4294967294 0)).2).1.isSome =
      true ∧
    (push 4294967295 false
      (pop 4294967295 false
        (pushSeq 4294967295 false ⟨0, 0, [], 0⟩ (List.replicate 4294967294 0)).2).2
      0).1 = true ∧
    (push 4294967295 false
      (push 4294967295 false
        (pop 4294967295 false
          (pushSeq 4294967295 false ⟨0, 0, [], 0⟩ (List.replicate 4294967294 0)).2).2
        0).2 0).1 = true := by
  obtain ⟨buf2, hrun⟩ := pushSeq_run 4294967295 false (by decide) (by decide)
    (List.replicate 4294967294 0) 0 []
    (by simp only [List.length_replicate]; omega)
  simp only [List.length_replicate, Nat.zero_add] at hrun
  rw [show ((⟨0, 0, [], 0⟩ : AQueue)) = ⟨0, 0, [], if false then 0 else 0⟩ from rfl,
    hrun]
  dsimp only
  simp [pop, push, countToIndex, u32, U32]

/-- Claim C4: the derived (non-exact) `size()` computed on a snapshot pair
returns `write - read` when `write ≥ read`, and the `uint32_t` value of
`Q_SIZE + write - read` otherwise (which equals the plain
`Q_SIZE + write - read` whenever `read ≤ Q_SIZE + write`); and concretely,
for the snapshot pair `(write, read) = (3, 4)` — obtainable by reading
`m_writeIndex` in the reachable state `(3, 2)` and `m_readIndex` only after
the queue advanced to the reachable state `(5, 4)` — `size` reports
`3 = Q_SIZE - 1` although just one element is live in the actual state. -/
theorem c4_size (qsize cw cr : Nat) (hcr : cr < U32) (hq : qsize < U32) :
    (cr ≤ cw → sizeSnap qsize cw cr = cw - cr) ∧
    (cw < cr → sizeSnap qsize cw cr = u32 (qsize + cw + (U32 - cr))) ∧
    (cw < cr → cr ≤ qsize + cw → sizeSnap qsize cw cr = qsize + cw - cr) ∧
    size 4 false ⟨5, 4, [5, 2, 3, 4], 0⟩ = 1 ∧
    sizeSnap 4 3 4 = 3 ∧
    Reach 4 false ⟨3, 2, [1, 2, 3, 0], 0⟩ 3 2 ∧
    Steps 4 false ⟨3, 2, [1, 2, 3, 0], 0⟩ ⟨5, 4, [5, 2, 3, 4], 0⟩ := by
  refine ⟨?_, ?_, ?_, by decide, by decide, ?_, ?_⟩
  · intro h
    unfold sizeSnap
    rw [if_pos h]
  · intro h
    unfold sizeSnap
    rw [if_neg (by omega : ¬ cr ≤ cw)]
  · intro h1 h2
    unfold sizeSnap
    rw [if_neg (by omega : ¬ cr ≤ cw)]
    have hcr4 : cr < 4294967296 := hcr
    have hq4 : qsize < 4294967296 := hq
    show (qsize + cw + (4294967296 - cr)) % 4294967296 = qsize + cw - cr
    omega
  · exact Reach.pop_step ⟨3, 1, [1, 2, 3, 0], 0⟩ 3 1 2 ⟨3, 2, [1, 2, 3, 0], 0⟩
      (Reach.pop_step ⟨3, 0, [1, 2, 3, 0], 0⟩ 3 0 1 ⟨3, 1, [1, 2, 3, 0], 0⟩
        (Reach.push_step ⟨2, 0, [1, 2, 0, 0], 0⟩ 2 0 3 ⟨3, 0, [1, 2, 3, 0], 0⟩
          (Reach.push_step ⟨1, 0, [1, 0, 0, 0], 0⟩ 1 0 2 ⟨2, 0, [1, 2, 0, 0], 0⟩
            (Reach.push_step ⟨0, 0, [0, 0, 0, 0], 0⟩ 0 0 1 ⟨1, 0, [1, 0, 0, 0], 0⟩
              (Reach.init [0, 0, 0, 0] rfl) (by decide))
            (by decide))
          (by decide))
        (by decide))
      (by decide)
  · exact Steps.push_step ⟨3, 2, [1, 2, 3, 0], 0⟩ ⟨4, 2, [1, 2, 3, 4], 0⟩ _ 4
      (by decide)
      (Steps.push_step ⟨4, 2, [1, 2, 3, 4], 0⟩ ⟨5, 2, [5, 2, 3, 4], 0⟩ _ 5
        (by decide)
        (Steps.pop_step ⟨5, 2, [5, 2, 3, 4], 0⟩ ⟨5, 3, [5, 2, 3, 4], 0⟩ _ 3
          (by decide)
          (Steps.pop_step ⟨5, 3, [5, 2, 3, 4], 0⟩ ⟨5, 4, [5, 2, 3, 4], 0⟩ _ 4
            (by decide)
            (Steps.refl ⟨5, 4, [5, 2, 3, 4], 0⟩))))

/-- Witness for claim C4 at the snapshot pair `(5, 2)`. -/
theorem c4_size_witness : sizeSnap 4 5 2 = 5 - 2 :=
  (c4_size 4 5 2 (by decide) (by decide)).1 (by decide)

/-- Claim C3 (amended: the wraparound-successor property holds for every
counter when the capacity divides `2^32`, and for every capacity at every
counter whose successor does not wrap; the claim as frozen fails for
`Q_SIZE = 3` at `c = 2^32 - 1`).  `countToIndex` returns `c % Q_SIZE`, a
slot in `[0, Q_SIZE)`, and maps the `uint32_t` successor of `c` to the
cyclic successor of the slot of `c` under either proviso. -/
theorem c3_countToIndex (qsize c0 : Nat) (hN : 1 ≤ qsize) (hc : c0 < U32) :
    countToIndex qsize c0 = c0 % qsize ∧
    countToIndex qsize c0 < qsize ∧
    (c0 + 1 < U32 →
      countToIndex qsize (u32 (c0 + 1)) = (countToIndex qsize c0 + 1) % qsize) ∧
    (qsize ∣ U32 →
      countToIndex qsize (u32 (c0 + 1)) = (countToIndex qsize c0 + 1) % qsize) := by
  refine ⟨rfl, Nat.mod_lt _ (by omega), ?_, ?_⟩
  · intro h
    unfold countToIndex
    rw [u32_eq_of_lt h]
    exact (Nat.mod_add_mod c0 qsize 1).symm
  · intro hd
    unfold countToIndex u32
    rw [Nat.mod_mod_of_dvd _ hd]
    exact (Nat.mod_add_mod c0 qsize 1).symm

/-- Witness for claim C3 at `Q_SIZE = 3`, `c = 5`. -/
theorem c3_countToIndex_witness :
    countToIndex 3 5 = 5 % 3 ∧ countToIndex 3 5 < 3 ∧
    (5 + 1 < U32 → countToIndex 3 (u32 (5 + 1)) = (countToIndex 3 5 + 1) % 3) ∧
    (3 ∣ U32 → countToIndex 3 (u32 (5 + 1)) = (countToIndex 3 5 + 1) % 3) :=
  c3_countToIndex 3 5 (by decide) (by decide)

/-- Counterexample to claim C3 as frozen: for `Q_SIZE = 3` the slot of the
`uint32_t` successor of `c = 2^32 - 1` is `0`, not the cyclic successor
`1` of the slot of `c`: `2^32` is not a multiple of `3`, so the modulo-`3`
sequence of slots is cut at the counter wraparound. -/
theorem c3_cex :
    ¬ (countToIndex 3 (u32 (4294967295 + 1)) =
      (countToIndex 3 4294967295 + 1) % 3) := by
  decide

end LockFreeQueue
